import Mathlib

/-!
Verification of the PythonDHCP server (src/dhcp.py) against its
natural-language specification.  The Python code is shallowly embedded:
strings are Lean `String`s manipulated through executable character-list
helpers, machine integers are `Nat` with explicit masking where the code
masks, the flat-file host database is a list of records (each record the
list of its semicolon-separated fields), and operations that can raise in
Python (StopIteration, IndexError, AssertionError, parse failures) return
`Option` with `none` standing for the raised exception.
-/

/-! ### Character-list string helpers

Executable counterparts of the Python string operations used by dhcp.py
(`split`, `strip`, `lower`, `upper`, `int(...)`, `str(...)`, `join`).
They are written by structural recursion on `List Char` so that every
definition evaluates inside the kernel. -/

/-- Splitting a character list at a separator, Python `str.split(sep)`:
the empty list yields one empty field, a trailing separator yields a
trailing empty field. -/
def splitChars (sep : Char) : List Char → List (List Char)
  | [] => [[]]
  | c :: cs =>
    let r := splitChars sep cs
    if c = sep then [] :: r
    else
      match r with
      | [] => [[c]]
      | h :: t => (c :: h) :: t

/-- Python `str.split` lifted to `String`. -/
def pySplit (s : String) (sep : Char) : List String :=
  (splitChars sep s.data).map (fun cs => ⟨cs⟩)

/-- Python `sep.join(fields)` on character lists. -/
def joinChars (sep : Char) : List (List Char) → List Char
  | [] => []
  | [f] => f
  | f :: fs => f ++ sep :: joinChars sep fs

/-- Python `sep.join(fields)` lifted to `String`. -/
def pyJoin (fields : List String) (sep : Char) : String :=
  ⟨joinChars sep (fields.map String.data)⟩

/-- Python `str.strip()`: remove leading and trailing whitespace. -/
def pyStrip (s : String) : String :=
  ⟨((s.data.dropWhile Char.isWhitespace).reverse.dropWhile Char.isWhitespace).reverse⟩

/-- Python `str.lower()` (ASCII case folding, which is all dhcp.py needs
for MAC addresses and hostnames). -/
def pyLower (s : String) : String := ⟨s.data.map Char.toLower⟩

/-- Python `str.upper()`. -/
def pyUpper (s : String) : String := ⟨s.data.map Char.toUpper⟩

/-- Numeric value of a decimal digit character. -/
def digitVal (c : Char) : Nat := c.toNat - 48

/-- Python `int(s)` on a plain digit string; `none` models the
`ValueError` raised on anything else.  (The files written by dhcp.py
itself only ever contain plain digit strings in the numeric field.) -/
def parseNatChars (cs : List Char) : Option Nat :=
  if cs ≠ [] ∧ cs.all Char.isDigit then
    some (cs.foldl (fun acc c => acc * 10 + digitVal c) 0)
  else none

/-- Python `int(s)` lifted to `String`. -/
def pyInt (s : String) : Option Nat := parseNatChars s.data

/-- Python `str(n)` for a natural number. -/
def natStr (n : Nat) : String := ⟨Nat.toDigits 10 n⟩

/-! ### IP address codec

socket.inet_aton / inet_ntoa and the struct packing used by dhcp.py.
An address is carried as its dotted-quad string exactly as in the code;
the numeric view is recovered on demand. -/

/-- Byte list of a dotted-quad string: each dot-separated field parsed as
a decimal number (socket.inet_aton; on a well-formed quad this is its
four bytes).  Malformed fields parse to 0 here, whereas Python raises;
theorems that depend on the numeric view carry well-formedness
hypotheses. -/
def aton4 (s : String) : List Nat :=
  (pySplit s '.').map (fun p => (pyInt p).getD 0)

/-- Numeric (big-endian, struct.unpack of inet_aton) value of a
dotted-quad string. -/
def atonN (s : String) : Nat :=
  (aton4 s).foldl (fun acc b => acc * 256 + b) 0

/-- socket.inet_ntoa: canonical dotted-quad string of a 32-bit value. -/
def ntoa (n : Nat) : String :=
  pyJoin [natStr (n / 16777216 % 256), natStr (n / 65536 % 256),
          natStr (n / 256 % 256), natStr (n % 256)] '.'

/-- Python `~mask & 0xffffffff`: the 32-bit complement. -/
def compl32 (m : Nat) : Nat := 0xffffffff ^^^ m

/-- A well-formed dotted quad: four fields, each a decimal number
below 256. -/
def validQuad (s : String) : Prop :=
  (pySplit s '.').length = 4 ∧
    ∀ p ∈ pySplit s '.', ∃ n, pyInt p = some n ∧ n < 256

instance (s : String) : Decidable (validQuad s) := by
  unfold validQuad
  exact instDecidableAnd

/-! ### Server configuration (class DHCPServerConfiguration) -/

/-- DHCPServerConfiguration: the configuration attributes the core
consumes.  `debug` is an external sink and carries no information, so it
is omitted from the pure model. -/
structure DHCPServerConfiguration where
  dhcp_offer_after_seconds : Nat := 10
  dhcp_acknowledge_after_seconds : Nat := 10
  length_of_transaction : Nat := 40
  network : String := "192.168.173.0"
  broadcast_address : String := "255.255.255.255"
  subnet_mask : String := "255.255.255.0"
  router : Option (List String) := none
  ip_address_lease_time : Nat := 300
  domain_name_server : Option (List String) := none
  host_file : String := "hosts.csv"

/-- Function ip_addresses(network, subnet_mask): the generator of every
address strictly between the network address and the directed broadcast
address, in ascending order, rendered by inet_ntoa. -/
def ip_addresses (network subnet_mask : String) : List String :=
  let mask := atonN subnet_mask
  let net := atonN network &&& mask
  let start := net + 1
  let stop := net ||| compl32 mask
  (List.range (stop - start)).map (fun i => ntoa (start + i))

/-- DHCPServerConfiguration.all_ip_addresses: skip the first five pool
addresses with next(), then hand back the rest.  Python raises
StopIteration when the pool has fewer than five addresses; that raise is
modelled as `none`. -/
def DHCPServerConfiguration.all_ip_addresses (c : DHCPServerConfiguration) :
    Option (List String) :=
  let ips := ip_addresses c.network c.subnet_mask
  if ips.length < 5 then none else some (ips.drop 5)

/-! ### Comparator objects (classes ALL, CASEINSENSITIVE, NETWORK) and
the NETWORK equality test -/

/-- Numeric core of NETWORK.__eq__: the stored ints are the raw (not
masked) network and the mask; the candidate must have the masked bits of
the stored network, a nonzero offset from it, and an offset different
from the 32-bit mask complement.  The offsets are integer differences
exactly as in Python. -/
def network_eq_num (net mask ip : Nat) : Bool :=
  ip &&& mask = net ∧ (ip : Int) - net ≠ 0 ∧ (ip : Int) - net ≠ compl32 mask

/-- NETWORK(network, subnet_mask) == other, on dotted-quad strings. -/
def NETWORK_eq (network subnet_mask other : String) : Bool :=
  network_eq_num (atonN network) (atonN subnet_mask) (atonN other)

/-- Comparator patterns as used in host-database lookups: the dhcp.py
pattern element is either a plain string (exact ==), the ALL object,
CASEINSENSITIVE(s), or NETWORK(net, mask).  (GREATER is only used by the
admin views, which no claim touches.) -/
inductive Pat
  | exact (s : String)
  | all
  | ci (s : String)
  | network (net mask : String)
deriving DecidableEq

/-- Equality test of one pattern element against one stored field,
mirroring each comparator's __eq__. -/
def Pat.eqTest : Pat → String → Bool
  | .exact s, other => s = other
  | .all, _ => true
  | .ci s, other => pyLower s = pyLower other
  | .network net mask, other => NETWORK_eq net mask other

/-- Python list equality `pattern == line`: same length and the
comparator of every position accepts the corresponding field. -/
def patMatches (pattern : List Pat) (line : List String) : Bool :=
  pattern.length = line.length ∧
    ∀ i ∈ List.range pattern.length,
      (pattern.getD i .all).eqTest (line.getD i "") = true

/-! ### Flat-file store (class CSVDatabase)

The database state is the list of its records, each record the list of
the semicolon-separated fields of one line, in file order. -/

/-- A host-database state: the parsed lines of the backing file. -/
abbrev DB := List (List String)

/-- CSVDatabase.all applied to raw file content (the physical lines
without their newlines): strip each line and split it on the
delimiter.  Note that every line is mapped, including empty ones. -/
def CSVDatabase.allRecords (lines : List String) : DB :=
  lines.map (fun l => pySplit (pyStrip l) ';')

/-- The line content CSVDatabase.add writes for a record (the newline it
appends is the line terminator, not part of the content). -/
def CSVDatabase.addedLine (fields : List String) : String :=
  pyJoin fields ';'

/-- CSVDatabase.get: the records equal (under the comparator elements)
to the pattern, in file order. -/
def CSVDatabase.get (pattern : List Pat) (db : DB) : DB :=
  db.filter (patMatches pattern)

/-- CSVDatabase.add: append one record. -/
def CSVDatabase.add (line : List String) (db : DB) : DB :=
  db ++ [line]

/-- CSVDatabase.delete: empty the file, then re-add every line that is
not among the matches of the pattern, in the original order. -/
def CSVDatabase.delete (pattern : List Pat) (db : DB) : DB :=
  let lines_to_delete := CSVDatabase.get pattern db
  db.filter (fun l => !lines_to_delete.contains l)

/-! ### Host records (class Host and class HostDatabase) -/

/-- Class Host: the constructor upper-cases the MAC and truncates
last_used with int(); `make` is Host.__init__ with the timestamp already
integral. -/
structure Host where
  mac : String
  ip : String
  hostname : String
  last_used : Nat
deriving DecidableEq

/-- Host(mac, ip, hostname, last_used): the constructor stores
mac.upper(). -/
def Host.make (mac ip hostname : String) (last_used : Nat) : Host :=
  ⟨pyUpper mac, ip, hostname, last_used⟩

/-- Host.from_tuple: unpack a four-field record and parse its timestamp;
`none` models the ValueError / unpacking error Python raises on any
other shape. -/
def Host.from_tuple : List String → Option Host
  | [mac, ip, hostname, lu] => (pyInt lu).map (Host.make mac ip hostname)
  | _ => none

/-- Host.to_tuple. -/
def Host.to_tuple (h : Host) : List String :=
  [h.mac, h.ip, h.hostname, natStr h.last_used]

/-- Host.get_pattern (positional: mac, ip, hostname, last_used). -/
def Host.get_pattern (mac ip hostname last_used : Pat) : List Pat :=
  [mac, ip, hostname, last_used]

/-- Host.to_pattern: exact match on (mac, ip). -/
def Host.to_pattern (h : Host) : List Pat :=
  Host.get_pattern (.exact h.mac) (.exact h.ip) .all .all

/-- HostDatabase.get: fetch the matching records and parse each into a
Host; a malformed matching record makes Python raise, modelled as
`none`. -/
def HostDatabase.get (pattern : List Pat) (db : DB) : Option (List Host) :=
  (CSVDatabase.get pattern db).mapM Host.from_tuple

/-- HostDatabase.add. -/
def HostDatabase.add (h : Host) (db : DB) : DB :=
  CSVDatabase.add h.to_tuple db

/-- HostDatabase.delete with a host argument: delete by its
(mac, ip) pattern. -/
def HostDatabase.deleteHost (h : Host) (db : DB) : DB :=
  CSVDatabase.delete h.to_pattern db

/-- HostDatabase.replace: delete then add. -/
def HostDatabase.replace (h : Host) (db : DB) : DB :=
  HostDatabase.add h (HostDatabase.deleteHost h db)

/-! ### Inbound packets (class ReadBootProtocolPacket)

The parser itself lives in the listener module, outside this repository;
only the fields the server reads are modelled, as an abstract record.
Option-carried fields are `none` when the packet lacks the option
(attribute access yields None). -/

/-- The fields of a parsed BOOTP/DHCP request that dhcp.py reads. -/
structure ReadPacket where
  message_type : Nat
  dhcp_message_type : Option String
  transaction_id : Nat
  client_mac_address : String
  requested_ip_address : Option String
  client_ip_address : Option String
  host_name : Option String
  parameter_request_list : List Nat
  relay_agent_ip_address : String
  bootp_flags : Nat

/-- Python `a or b` on optional strings: None and the empty string are
falsy. -/
def pyOr (a b : Option String) : Option String :=
  match a with
  | none => b
  | some s => if s = "" then b else some s

/-- Python `a or dflt` producing a plain string default. -/
def pyOrStr (a : Option String) (dflt : String) : String :=
  match a with
  | none => dflt
  | some s => if s = "" then dflt else s

/-- A host freshly derived from a packet (Host.from_packet): its ip may
be absent, exactly as the Python Host object then holds None. -/
structure PacketHost where
  mac : String
  ip : Option String
  hostname : String
  last_used : Nat

/-- Host.from_packet: requested_ip_address or client_ip_address (Python
`or`), host_name or the empty string, the current time; the constructor
upper-cases the MAC. -/
def Host.from_packet (p : ReadPacket) (now : Nat) : PacketHost :=
  ⟨pyUpper p.client_mac_address,
   pyOr p.requested_ip_address p.client_ip_address,
   pyOrStr p.host_name "",
   now⟩

/-- Host.has_valid_ip: the ip is truthy and not 0.0.0.0. -/
def PacketHost.has_valid_ip (h : PacketHost) : Bool :=
  match h.ip with
  | none => false
  | some s => s ≠ "" && s ≠ "0.0.0.0"

/-! ### The server's allocation engine (class DHCPServer) -/

/-- DHCPServer.is_valid_client_address: octet-string comparison of the
address against the configured network wherever the mask octet string is
not the literal "0".  Python indexes the four octets and raises on
shorter splits; out-of-range positions read as "" here, and theorems
that need the numeric meaning assume well-formed quads. -/
def is_valid_client_address (c : DHCPServerConfiguration)
    (address : Option String) : Bool :=
  match address with
  | none => false
  | some a =>
    let av := pySplit a '.'
    let s := pySplit c.subnet_mask '.'
    let n := pySplit c.network '.'
    (List.range 4).all (fun i => s.getD i "" = "0" || av.getD i "" = n.getD i "")

/-- DHCPServer.client_has_chosen: derive a host from the packet and, if
it has a valid ip, replace its store record; otherwise return with the
store untouched. -/
def client_has_chosen (db : DB) (p : ReadPacket) (now : Nat) : DB :=
  let host := Host.from_packet p now
  if host.has_valid_ip then
    HostDatabase.replace ⟨host.mac, host.ip.getD "", host.hostname, host.last_used⟩ db
  else db

/-- Stable insertion into a list sorted by ascending last_used: the new
element goes before every element whose key is not smaller, which is the
placement Python's stable list.sort gives an earlier-positioned
element. -/
def insertByLastUsed (h : Host) : List Host → List Host
  | [] => [h]
  | x :: xs =>
    if x.last_used < h.last_used then x :: insertByLastUsed h xs
    else h :: x :: xs

/-- network_hosts.sort(key=lambda host: host.last_used): stable
ascending sort. -/
def sortByLastUsed (l : List Host) : List Host :=
  l.foldr insertByLastUsed []

/-- The store update at the end of get_ip_address: when no known host
already holds the chosen ip, replace the (mac, ip) record with a fresh
one stamped now. -/
def recordAllocation (db : DB) (mac : String) (host_name : Option String)
    (known_hosts : List Host) (ip : String) (now : Nat) : String × DB :=
  if known_hosts.any (fun h => h.ip = ip) then (ip, db)
  else (ip, HostDatabase.replace (Host.make mac ip (pyOrStr host_name "") now) db)

/-- Steps 1 and 2 of the selection: the accumulator loop over the known
hosts keeping the last valid ip (step 1), else the requested address if
it is valid (step 2). -/
def knownOrRequested (c : DHCPServerConfiguration) (known_hosts : List Host)
    (requested : Option String) : Option String :=
  match known_hosts.foldl
      (fun acc h => if is_valid_client_address c (some h.ip) then some h.ip else acc)
      none with
  | some i => some i
  | none => if is_valid_client_address c requested then requested else none

/-- DHCPServer.get_ip_address: the four-step selection followed by the
store update.  `none` models every way the Python method raises: a
malformed matching record, StopIteration from a too-small pool, the
IndexError on an empty LRU candidate list, and the AssertionError on an
invalid LRU address. -/
def get_ip_address (c : DHCPServerConfiguration) (db : DB) (p : ReadPacket)
    (now : Nat) : Option (String × DB) :=
  match HostDatabase.get (Host.get_pattern (.ci p.client_mac_address) .all .all .all) db with
  | none => none
  | some known_hosts =>
    match knownOrRequested c known_hosts p.requested_ip_address with
    | some ip => some (recordAllocation db p.client_mac_address p.host_name known_hosts ip now)
    | none =>
      match HostDatabase.get
          (Host.get_pattern .all (.network c.network c.subnet_mask) .all .all) db with
      | none => none
      | some network_hosts =>
        match c.all_ip_addresses with
        | none => none
        | some pool =>
          match pool.find? (fun ip => !(network_hosts.any (fun h => h.ip = ip))) with
          | some ip =>
            some (recordAllocation db p.client_mac_address p.host_name known_hosts ip now)
          | none =>
            match (sortByLastUsed network_hosts).head? with
            | none => none
            | some h0 =>
              if is_valid_client_address c (some h0.ip) then
                some (recordAllocation db p.client_mac_address p.host_name known_hosts h0.ip now)
              else none

/-- The first record of a list attaining the minimal last_used. -/
def firstMinByLastUsed (l : List Host) : Option Host :=
  l.foldl
    (fun acc h =>
      match acc with
      | none => some h
      | some m => if h.last_used < m.last_used then some h else acc)
    none

/-- The selection policy exactly as the specification words it: (1) the
last case-insensitive MAC match whose ip passes is_valid_client_address,
else (2) a valid requested ip, else (3) the first pool address not used
by an in-network record, else (4) the ip of the in-network record with
the smallest last_used.  Steps are tried in order on demand, as the
server does. -/
def allocation_policy (c : DHCPServerConfiguration) (db : DB)
    (p : ReadPacket) : Option String :=
  match HostDatabase.get (Host.get_pattern (.ci p.client_mac_address) .all .all .all) db with
  | none => none
  | some known_hosts =>
    match ((known_hosts.filter
        (fun h => is_valid_client_address c (some h.ip))).getLast?).map Host.ip with
    | some ip => some ip
    | none =>
      if is_valid_client_address c p.requested_ip_address then p.requested_ip_address
      else
        match HostDatabase.get
            (Host.get_pattern .all (.network c.network c.subnet_mask) .all .all) db with
        | none => none
        | some network_hosts =>
          match c.all_ip_addresses with
          | none => none
          | some pool =>
            match pool.find? (fun ip => !(network_hosts.any (fun h => h.ip = ip))) with
            | some ip => some ip
            | none => (firstMinByLastUsed network_hosts).map Host.ip

/-! ### Transactions (class DHCPTransaction)

The mutable per-transaction state is the done flag and the expiry time;
the constructor stamps done_time = creation time + length_of_transaction.
Receiving a packet schedules a delayed callback (or handles INFORM at
once); the DISCOVER callback sends an OFFER unless the transaction is
done, and assigns no transaction state at all. -/

/-- The mutable state of a DHCPTransaction. -/
structure DHCPTransaction where
  done : Bool
  done_time : Nat

/-- DHCPTransaction.__init__ at a given creation time. -/
def DHCPTransaction.create (c : DHCPServerConfiguration) (created_at : Nat) :
    DHCPTransaction :=
  ⟨false, created_at + c.length_of_transaction⟩

/-- DHCPTransaction.is_done. -/
def DHCPTransaction.is_done (t : DHCPTransaction) (now : Nat) : Bool :=
  t.done || decide (t.done_time < now)

/-- The three callbacks DHCPTransaction.receive can route a packet
to. -/
inductive CallbackKind
  | discover
  | request
  | inform
deriving DecidableEq

/-- DHCPTransaction.receive: dispatch on the message type, returning the
delay and callback it schedules (`none` when the packet is not handled,
the False branch).  INFORM is handled inline, i.e. with delay 0. -/
def DHCPTransaction.receive (c : DHCPServerConfiguration) (p : ReadPacket) :
    Option (Nat × CallbackKind) :=
  if p.message_type = 1 ∧ p.dhcp_message_type = some "DHCPDISCOVER" then
    some (c.dhcp_offer_after_seconds, .discover)
  else if p.message_type = 1 ∧ p.dhcp_message_type = some "DHCPREQUEST" then
    some (c.dhcp_acknowledge_after_seconds, .request)
  else if p.message_type = 1 ∧ p.dhcp_message_type = some "DHCPINFORM" then
    some (0, .inform)
  else none

/-- DHCPTransaction.received_dhcp_discover run at a given wall-clock
time: it returns early when the transaction is done and otherwise
send_offer broadcasts exactly one OFFER; the transaction state is left
untouched either way (the method assigns nothing). -/
def received_dhcp_discover_sends (t : DHCPTransaction) (now : Nat) : Bool :=
  !t.is_done now

/-- Number of OFFER broadcasts produced when two packets are received on
the same transaction and their scheduled DISCOVER callbacks run at times
e1 and e2: each packet routed to received_dhcp_discover contributes an
OFFER exactly when the (unchanged) transaction is not done at its
callback's execution time. -/
def offersFromTwoDiscovers (c : DHCPServerConfiguration) (t : DHCPTransaction)
    (p1 p2 : ReadPacket) (e1 e2 : Nat) : Nat :=
  (match DHCPTransaction.receive c p1 with
   | some (_, .discover) => if received_dhcp_discover_sends t e1 then 1 else 0
   | _ => 0) +
  (match DHCPTransaction.receive c p2 with
   | some (_, .discover) => if received_dhcp_discover_sends t e2 then 1 else 0
   | _ => 0)

/-! ### The delay queue (class PriorityQueue and
TransactionDelayWorker)

heapq orders the pushed tuples (self._index, item) lexicographically;
the indices are pairwise distinct and increasing, so the popped entry is
always the one with the least index and the item components are never
compared.  The heap is therefore modelled by its entry list plus the
counter, with get removing the least-index entry. -/

/-- PriorityQueue state: pushed entries (index, item) and the insertion
counter. -/
structure PriorityQueue (α : Type) where
  entries : List (Nat × α)
  index : Nat

/-- PriorityQueue.__init__. -/
def PriorityQueue.empty {α} : PriorityQueue α := ⟨[], 0⟩

/-- PriorityQueue.put: heappush (self._index, item) and bump the
counter. -/
def PriorityQueue.put {α} (q : PriorityQueue α) (item : α) : PriorityQueue α :=
  ⟨q.entries ++ [(q.index, item)], q.index + 1⟩

/-- The entry heappop returns: the minimum of the pushed tuples, which
by distinctness of indices is the entry with the least index. -/
def findMinEntry {α} : List (Nat × α) → Option (Nat × α)
  | [] => none
  | e :: es =>
    match findMinEntry es with
    | none => some e
    | some m => if e.1 ≤ m.1 then some e else some m

/-- Remove the first entry carrying a given index. -/
def eraseByKey {α} (k : Nat) : List (Nat × α) → List (Nat × α)
  | [] => []
  | e :: es => if e.1 = k then es else e :: eraseByKey k es

/-- PriorityQueue.get: heappop, handing back the item of the
least-index entry (`none` models the IndexError on an empty heap). -/
def PriorityQueue.get {α} (q : PriorityQueue α) : Option (α × PriorityQueue α) :=
  match findMinEntry q.entries with
  | none => none
  | some e => some (e.2, ⟨eraseByKey e.1 q.entries, q.index⟩)

/-- One pass of TransactionDelayWorker._delay_response_thread over a
non-empty queue of (fire_time, callable-tag) items at wall-clock `now`:
pop; if the popped item is not yet due, push it back and invoke nothing,
otherwise invoke it.  Returns the invoked item (if any) and the new
queue. -/
def workerStep {α} (now : Nat) (q : PriorityQueue (Nat × α)) :
    Option (Nat × α) × PriorityQueue (Nat × α) :=
  match q.get with
  | none => (none, q)
  | some (item, q') =>
    if now < item.1 then (none, q'.put item) else (some item, q')

/-! ### Outbound packets (class WriteBootProtocolPacket)

The per-option name table `options` lives in the listener module, which
is not part of this repository; it is abstracted as its length and its
name column (unknown codes carry the empty name, on which Python's
hasattr(self, '') is False).  Option values are modelled post-encoding,
as the byte list the table encoder produced, `some none` standing for an
attribute that is present but holds None. -/

/-- The global option table, abstracted: number of rows and the name of
each row. -/
structure OptionTable where
  len : Nat
  name : Nat → String

/-- The writable packet: fixed BOOTP fields plus the dynamic option
attributes.  `attrs s` is the value of the attribute named `s` (`none`
when hasattr is false, `some none` when the attribute is None), `numOpt
c` likewise for the attribute option_c. -/
structure WriteBootProtocolPacket where
  message_type : Nat := 2
  hardware_type : Nat := 1
  hardware_address_length : Nat := 6
  hops : Nat := 0
  transaction_id : Nat := 0
  seconds_elapsed : Nat := 0
  bootp_flags : Nat := 0
  client_ip_address : String := "0.0.0.0"
  your_ip_address : String := "0.0.0.0"
  next_server_ip_address : String := "0.0.0.0"
  relay_agent_ip_address : String := "0.0.0.0"
  client_mac_address : String := ""
  magic_cookie : String := "99.130.83.99"
  parameter_order : List Nat := []
  attrs : String → Option (Option (List Nat)) := fun _ => none
  numOpt : Nat → Option (Option (List Nat)) := fun _ => none

/-- WriteBootProtocolPacket.get_option: prefer the symbolic table-name
attribute of an in-table code, else the numeric option_NN attribute,
else None.  After either attribute read Python indexes the table row for
the encoder, so a numeric attribute at a code beyond the table raises
IndexError, modelled by the outer `none`. -/
def WriteBootProtocolPacket.get_option (tbl : OptionTable)
    (p : WriteBootProtocolPacket) (c : Nat) : Option (Option (List Nat)) :=
  if c < tbl.len ∧ (p.attrs (tbl.name c)).isSome then
    some ((p.attrs (tbl.name c)).getD none)
  else
    match p.numOpt c with
    | some v => if c < tbl.len then some v else none
    | none => some none

/-- The options property: the emission order.  First pass over the
client's parameter_order keeping codes that have a symbolic in-table
attribute or a numeric attribute; second pass over the table rows in
ascending code order keeping named attributes; third pass over codes
0..255 keeping numeric attributes; each pass appends codes not already
collected. -/
def WriteBootProtocolPacket.options (tbl : OptionTable)
    (p : WriteBootProtocolPacket) : List Nat :=
  let done1 := p.parameter_order.foldl
    (fun done c =>
      if ((decide (c < tbl.len) && (p.attrs (tbl.name c)).isSome)
            || (p.numOpt c).isSome) && !done.contains c
      then done ++ [c] else done) []
  let done2 := (List.range tbl.len).foldl
    (fun done c =>
      if (tbl.name c ≠ "" : Bool) && (p.attrs (tbl.name c)).isSome && !done.contains c
      then done ++ [c] else done) done1
  (List.range 256).foldl
    (fun done c =>
      if (p.numOpt c).isSome && !done.contains c
      then done ++ [c] else done) done2

/-- First-occurrence deduplication (skipping anything already in
`seen`), by structural recursion so that it evaluates in the kernel. -/
def dedupSkip (seen : List Nat) : List Nat → List Nat
  | [] => []
  | x :: xs =>
    if seen.contains x then dedupSkip seen xs
    else x :: dedupSkip (seen ++ [x]) xs

/-- First-occurrence deduplication of a list. -/
def dedupFirst (l : List Nat) : List Nat := dedupSkip [] l

/-- The option order as the specification words it: the deduplicated
requested codes the server has a value for, in the client's order; then
the symbolically named attributes in ascending table order, minus those
already emitted; then the numeric attributes in ascending code order,
minus those already emitted. -/
def WriteBootProtocolPacket.optionsSpec (tbl : OptionTable)
    (p : WriteBootProtocolPacket) : List Nat :=
  let hasVal := fun c =>
    (decide (c < tbl.len) && (p.attrs (tbl.name c)).isSome) || (p.numOpt c).isSome
  let l1 := dedupFirst (p.parameter_order.filter hasVal)
  let l2 := (List.range tbl.len).filter
    (fun c => !l1.contains c
      && ((tbl.name c ≠ "" : Bool) && (p.attrs (tbl.name c)).isSome))
  let l3 := (List.range 256).filter
    (fun c => !(l1 ++ l2).contains c && (p.numOpt c).isSome)
  l1 ++ l2 ++ l3

/-! ### Serialization (WriteBootProtocolPacket.to_bytes) -/

/-- Python bytearray slice assignment result[start:stop] = v (which
resizes when v's length differs from the slice width). -/
def sliceAssign (l : List Nat) (start stop : Nat) (v : List Nat) : List Nat :=
  l.take start ++ v ++ l.drop stop

/-- struct.pack of a big-endian unsigned 16-bit value (helper shortpack
of the listener module; modelled from the spec: u16, big-endian, fixed
width). -/
def shortpack (n : Nat) : List Nat := [n / 256 % 256, n % 256]

/-- struct.pack of a big-endian unsigned 32-bit value. -/
def pack32 (n : Nat) : List Nat :=
  [n / 16777216 % 256, n / 65536 % 256, n / 256 % 256, n % 256]

/-- Value of a hexadecimal digit character. -/
def hexVal (c : Char) : Nat :=
  if c.isDigit then c.toNat - 48
  else if 'a' ≤ c ∧ c ≤ 'f' then c.toNat - 87
  else if 'A' ≤ c ∧ c ≤ 'F' then c.toNat - 55
  else 0

/-- Modelled from the spec: macpack of the listener module (not under
src/) packs a colon-separated hex MAC string into its hardware-address
bytes (6 of them for Ethernet). -/
def macpack (mac : String) : List Nat :=
  (pySplit mac ':').map (fun part => part.data.foldl (fun acc c => acc * 16 + hexVal c) 0)

/-- WriteBootProtocolPacket.to_bytes: fill a 236-byte zeroed header
field by field, append the magic cookie, then a type-length-value record
for each option of the options property whose value is not None, and
close with the 255 terminator.  `none` models the IndexError
get_option can raise. -/
def WriteBootProtocolPacket.to_bytes (tbl : OptionTable)
    (p : WriteBootProtocolPacket) : Option (List Nat) := do
  let result := List.replicate 236 0
  let result := result.set 0 p.message_type
  let result := result.set 1 p.hardware_type
  let result := result.set 2 p.hardware_address_length
  let result := result.set 3 p.hops
  let result := sliceAssign result 4 8 (pack32 p.transaction_id)
  let result := sliceAssign result 8 10 (shortpack p.seconds_elapsed)
  let result := sliceAssign result 10 12 (shortpack p.bootp_flags)
  let result := sliceAssign result 12 16 (aton4 p.client_ip_address)
  let result := sliceAssign result 16 20 (aton4 p.your_ip_address)
  let result := sliceAssign result 20 24 (aton4 p.next_server_ip_address)
  let result := sliceAssign result 24 28 (aton4 p.relay_agent_ip_address)
  let result := sliceAssign result 28 (28 + p.hardware_address_length)
    (macpack p.client_mac_address)
  let result := result ++ aton4 p.magic_cookie
  let result ← (WriteBootProtocolPacket.options tbl p).foldlM
    (fun acc c => do
      match ← WriteBootProtocolPacket.get_option tbl p c with
      | none => pure acc
      | some v => pure (acc ++ [c, v.length] ++ v))
    result
  return result ++ [255]

/-- The emitted options: each code of the options property paired with
its non-None value. -/
def WriteBootProtocolPacket.emitted (tbl : OptionTable)
    (p : WriteBootProtocolPacket) : List (Nat × List Nat) :=
  (WriteBootProtocolPacket.options tbl p).filterMap
    (fun c =>
      match WriteBootProtocolPacket.get_option tbl p c with
      | some (some v) => some (c, v)
      | _ => none)

/-- The fixed 236-byte BOOTP header as the specification lays it out:
the four single-byte fields, the big-endian numerics, the four ip
fields, the hardware address, and zero padding to the end of the
header. -/
def fixedHeaderSpec (p : WriteBootProtocolPacket) : List Nat :=
  [p.message_type, p.hardware_type, p.hardware_address_length, p.hops]
    ++ pack32 p.transaction_id
    ++ shortpack p.seconds_elapsed
    ++ shortpack p.bootp_flags
    ++ aton4 p.client_ip_address
    ++ aton4 p.your_ip_address
    ++ aton4 p.next_server_ip_address
    ++ aton4 p.relay_agent_ip_address
    ++ macpack p.client_mac_address
    ++ List.replicate 202 0

/-! ### Specification-side derived notions -/

/-- The network address of (net, mask). -/
def network_address_of (net mask : Nat) : Nat := net &&& mask

/-- The directed broadcast address of (net, mask). -/
def broadcast_address_of (net mask : Nat) : Nat :=
  (net &&& mask) ||| compl32 mask

/-- The pool as the specification describes it: the addresses from
network_address + 6 through broadcast_address - 1, in ascending numeric
order. -/
def poolSpec (c : DHCPServerConfiguration) : List String :=
  let mask := atonN c.subnet_mask
  let net := network_address_of (atonN c.network) mask
  let brd := broadcast_address_of (atonN c.network) mask
  (List.range (brd - (net + 6))).map (fun i => ntoa (net + 6 + i))

/-- The concatenated type-length-value records of the emitted
options. -/
def tlvBytes (tbl : OptionTable) (p : WriteBootProtocolPacket) : List Nat :=
  ((WriteBootProtocolPacket.emitted tbl p).map
    (fun e => e.1 :: e.2.length :: e.2)).flatten

/-! ### Concrete fixtures used by witnesses and counterexamples -/

/-- A /29 configuration: the pool between 10.0.0.0 and 10.0.0.7 has six
inner addresses, of which all_ip_addresses keeps only 10.0.0.6. -/
def cfg248 : DHCPServerConfiguration :=
  { network := "10.0.0.0", subnet_mask := "255.255.255.248" }

/-- A /30 configuration: only two inner addresses, fewer than the five
all_ip_addresses skips. -/
def cfg252 : DHCPServerConfiguration :=
  { network := "10.0.0.0", subnet_mask := "255.255.255.252" }

/-- A store whose single record occupies the whole cfg248 pool. -/
def db248 : DB := [["AA", "10.0.0.6", "h", "5"]]

/-- A DISCOVER from a fresh client with no requested address. -/
def pkt248 : ReadPacket :=
  { message_type := 1, dhcp_message_type := some "DHCPDISCOVER",
    transaction_id := 1, client_mac_address := "BB",
    requested_ip_address := none, client_ip_address := none,
    host_name := none, parameter_request_list := [],
    relay_agent_ip_address := "0.0.0.0", bootp_flags := 0 }

/-- A DISCOVER carrying a valid requested address. -/
def pktReq : ReadPacket :=
  { message_type := 1, dhcp_message_type := some "DHCPDISCOVER",
    transaction_id := 2, client_mac_address := "aa:bb:cc:00:00:02",
    requested_ip_address := some "192.168.173.50",
    client_ip_address := none, host_name := some "laptop",
    parameter_request_list := [], relay_agent_ip_address := "0.0.0.0",
    bootp_flags := 0 }

/-- An option table covering all 256 codes, with one symbolic name. -/
def tbl256 : OptionTable :=
  ⟨256, fun c => if c = 1 then "subnet_mask" else ""⟩

/-- A reply packet carrying one symbolically named option (subnet_mask,
code 1, requested by the client) and one numeric option (option_53). -/
def pktW : WriteBootProtocolPacket :=
  { transaction_id := 305419896,
    client_mac_address := "aa:bb:cc:00:00:02",
    parameter_order := [1],
    attrs := fun s => if s = "subnet_mask" then some (some [255, 255, 255, 0]) else none,
    numOpt := fun c => if c = 53 then some (some [2]) else none }

/-- A REQUEST carrying no address at all. -/
def pktNoIp : ReadPacket :=
  { message_type := 1, dhcp_message_type := some "DHCPREQUEST",
    transaction_id := 3, client_mac_address := "aa:bb:cc:00:00:03",
    requested_ip_address := none, client_ip_address := none,
    host_name := none, parameter_request_list := [],
    relay_agent_ip_address := "0.0.0.0", bootp_flags := 0 }

/-! ### Claim C2: one OFFER per duplicated DISCOVER xid -/

/-- C2 counterexample: two DISCOVERs on the same transaction, both
received and with both scheduled callbacks executing well inside
length_of_transaction (at 10 s and 12 s of a 40 s transaction created at
time 0), broadcast two OFFERs, not one: the transaction records no state
on the first DISCOVER, so the second is not ignored. -/
theorem c2_counterexample :
    offersFromTwoDiscovers {} (DHCPTransaction.create {} 0) pkt248 pkt248 10 12 = 2 ∧
    offersFromTwoDiscovers {} (DHCPTransaction.create {} 0) pkt248 pkt248 10 12 ≠ 1 := by
  decide

/-- C2 amended: each of two DISCOVERs with the same xid produces its own
OFFER whenever its delayed callback runs while the transaction is not
done; the transaction state never advances on a DISCOVER, so within the
transaction's lifetime and absent a closing REQUEST or INFORM the count
is two, and it drops only when a callback fires after the transaction is
done. -/
theorem c2_amended (c : DHCPServerConfiguration) (t : DHCPTransaction)
    (p1 p2 : ReadPacket) (e1 e2 : Nat)
    (h1m : p1.message_type = 1) (h1t : p1.dhcp_message_type = some "DHCPDISCOVER")
    (h2m : p2.message_type = 1) (h2t : p2.dhcp_message_type = some "DHCPDISCOVER")
    (hd1 : t.is_done e1 = false) (hd2 : t.is_done e2 = false) :
    offersFromTwoDiscovers c t p1 p2 e1 e2 = 2 := by
  simp [offersFromTwoDiscovers, DHCPTransaction.receive, h1m, h1t, h2m, h2t,
    received_dhcp_discover_sends, hd1, hd2]

/-- C2 witness: the amended theorem applied to a transaction created at
time 1 with callbacks at 11 s and 13 s. -/
theorem c2_amended_witness :
    offersFromTwoDiscovers {} (DHCPTransaction.create {} 1) pkt248 pkt248 11 13 = 2 :=
  c2_amended {} (DHCPTransaction.create {} 1) pkt248 pkt248 11 13
    (by decide) (by decide) (by decide) (by decide) (by decide) (by decide)

/-! ### Claim C3: the delay queue is keyed by insertion order, not
fire time -/

/-- C3: with two pending items both already due at time 20 — fire time
10 inserted first, fire time 5 inserted second — the worker pass invokes
the item with fire time 10 first: heapq orders the pushed pairs
(index, item) by the insertion index, so the earlier fire time is not
served first, contradicting the worker docstring's priority-is-time
queue. -/
theorem c3_fifo_not_fire_time :
    (workerStep 20
        (((PriorityQueue.empty : PriorityQueue (Nat × String)).put (10, "A")).put
          (5, "B"))).1 = some (10, "A") := by
  decide

/-! ### Claim C9: empty lines and the flat file -/

/-- C9 counterexample: CSVDatabase.all maps every physical line, so a
file holding an empty line followed by a well-formed record yields the
one-field record derived from the empty line rather than ignoring
it. -/
theorem c9_counterexample :
    [""] ∈ CSVDatabase.allRecords ["", "A;B;C;1"] ∧
    CSVDatabase.allRecords ["", "A;B;C;1"] = [[""], ["A", "B", "C", "1"]] := by
  decide

/-- C9 amended: the records CSVDatabase.get returns against any
four-element pattern (hence everything HostDatabase.get and
HostDatabase.all yield) never include the record an empty line parses
to, because Python list equality demands equal lengths; and the line
CSVDatabase.add writes for a four-field host record is never empty. -/
theorem c9_amended :
    (∀ (lines : List String) (pat : List Pat), pat.length = 4 →
      ∀ r ∈ CSVDatabase.get pat (CSVDatabase.allRecords lines), r ≠ [""]) ∧
    (∀ fields : List String, fields.length = 4 →
      CSVDatabase.addedLine fields ≠ "") := by
  constructor
  · intro lines pat hpat r hr hr1
    have hm := List.of_mem_filter hr
    have hm' := of_decide_eq_true hm
    have hlen := hm'.1
    rw [hr1] at hlen
    simp at hlen
    omega
  · intro fields hlen
    obtain ⟨a, b, c, d, rfl⟩ : ∃ a b c d, fields = [a, b, c, d] := by
      match fields, hlen with
      | [a, b, c, d], _ => exact ⟨a, b, c, d, rfl⟩
    intro h
    have : (CSVDatabase.addedLine [a, b, c, d]).data = "".data := by rw [h]
    simp [CSVDatabase.addedLine, pyJoin, joinChars] at this

/-- C9 witness: the amended theorem applied to the one-record file
"A;B;C;1" with the all-wildcard pattern, and to the record itself. -/
theorem c9_amended_witness :
    (["A", "B", "C", "1"] : List String) ≠ [""] ∧
    CSVDatabase.addedLine ["A", "B", "C", "1"] ≠ "" :=
  ⟨c9_amended.1 ["A;B;C;1"] [.all, .all, .all, .all] (by decide)
      ["A", "B", "C", "1"] (by decide),
    c9_amended.2 ["A", "B", "C", "1"] (by decide)⟩

/-! ### Claim C10: no store write without a valid derived ip -/

/-- C10: when the packet carries no requested_ip_address and its
client_ip_address is absent, empty, or 0.0.0.0, the derived host has no
valid ip and client_has_chosen leaves the store untouched. -/
theorem c10_no_store_write (db : DB) (p : ReadPacket) (now : Nat)
    (hreq : p.requested_ip_address = none)
    (hcli : p.client_ip_address = none ∨ p.client_ip_address = some "" ∨
      p.client_ip_address = some "0.0.0.0") :
    client_has_chosen db p now = db := by
  rcases hcli with h | h | h <;>
    simp [client_has_chosen, Host.from_packet, PacketHost.has_valid_ip, pyOr, hreq, h]

/-- C10 witness: a REQUEST with neither address leaves the empty store
empty. -/
theorem c10_witness : client_has_chosen [] pktNoIp 5 = [] :=
  c10_no_store_write [] pktNoIp 5 (by decide) (Or.inl (by decide))

/-! ### Claim C4: the address pool -/

/-- C4 counterexample: under a /30 mask the inner range has only two
addresses, so all_ip_addresses raises StopIteration while skipping the
first five instead of enumerating the (empty) claimed range. -/
theorem c4_counterexample :
    cfg252.all_ip_addresses = none ∧
    cfg252.all_ip_addresses ≠ some (poolSpec cfg252) := by
  decide

/-- C4 amended: provided the range holds the five skipped addresses
(network_address + 6 ≤ broadcast_address), all_ip_addresses enumerates
exactly the addresses from network_address + 6 through
broadcast_address - 1 in ascending numeric order, never yielding the
network address, the first five usable addresses, or the directed
broadcast address. -/
theorem c4_amended (c : DHCPServerConfiguration)
    (h : network_address_of (atonN c.network) (atonN c.subnet_mask) + 6 ≤
      broadcast_address_of (atonN c.network) (atonN c.subnet_mask)) :
    c.all_ip_addresses = some (poolSpec c) := by
  unfold network_address_of broadcast_address_of at h
  set mask := atonN c.subnet_mask with hm
  set net := atonN c.network &&& mask with hn
  set brd := net ||| compl32 mask with hb
  have hip : ip_addresses c.network c.subnet_mask
      = (List.range (brd - (net + 1))).map (fun i => ntoa (net + 1 + i)) := rfl
  have hps : poolSpec c
      = (List.range (brd - (net + 6))).map (fun i => ntoa (net + 6 + i)) := rfl
  have h5 : ¬ ((ip_addresses c.network c.subnet_mask).length < 5) := by
    rw [hip]; simp; omega
  unfold DHCPServerConfiguration.all_ip_addresses
  rw [if_neg h5, hip, hps]
  have hsplit : brd - (net + 1) = 5 + (brd - (net + 6)) := by omega
  rw [hsplit, List.range_add, List.map_append]
  have hlen5 : ((List.range 5).map (fun i => ntoa (net + 1 + i))).length = 5 := by simp
  have hdrop : ∀ (l₁ l₂ : List String), l₁.length = 5 → (l₁ ++ l₂).drop 5 = l₂ := by
    intro l₁ l₂ hl
    rw [← hl, List.drop_left]
  rw [hdrop _ _ hlen5, List.map_map]
  have hfun : ((fun i => ntoa (net + 1 + i)) ∘ fun x => 5 + x)
      = (fun i => ntoa (net + 6 + i)) := by
    funext i
    simp only [Function.comp_apply]
    congr 1
    omega
  rw [hfun]

/-- C4 witness for the amended claim: on the /29 configuration the pool
is the single address 10.0.0.6 = network_address + 6. -/
theorem c4_amended_witness :
    cfg248.all_ip_addresses = some (poolSpec cfg248) ∧
    poolSpec cfg248 = ["10.0.0.6"] :=
  ⟨c4_amended cfg248 (by decide), by decide⟩

/-! ### Claim C6: the NETWORK comparator -/

/-- Disjoint binary numbers add like bitwise or. -/
theorem add_eq_lor_of_land_eq_zero (a b : Nat) (h : a &&& b = 0) :
    a + b = a ||| b := by
  induction a using Nat.binaryRec generalizing b with
  | z => simp
  | f x a ih =>
    rw [← Nat.bit_decomp b] at h ⊢
    rw [Nat.land_bit, Nat.bit_eq_zero_iff] at h
    have h2 := h.2
    have ih' := ih (Nat.div2 b) h.1
    rw [Nat.lor_bit, Nat.bit_val, Nat.bit_val, Nat.bit_val, ← ih']
    clear ih ih' h
    cases x <;> cases hbb : Nat.bodd b <;> simp_all <;> omega

/-- A number lying inside a 32-bit mask is disjoint from the mask's
32-bit complement. -/
theorem land_compl32_eq_zero (net mask : Nat) (hmasked : net &&& mask = net)
    (hmask : mask < 4294967296) : net &&& compl32 mask = 0 := by
  have hmc : mask &&& compl32 mask = 0 := by
    apply Nat.eq_of_testBit_eq
    intro i
    simp only [Nat.testBit_land, compl32, Nat.testBit_xor, Nat.zero_testBit]
    have h32 : (0xffffffff : Nat) = 2 ^ 32 - 1 := by norm_num
    by_cases hi : i < 32
    · rw [h32, Nat.testBit_two_pow_sub_one]
      simp [hi]
    · have h32le : 32 ≤ i := by omega
      have hfalse : Nat.testBit mask i = false := by
        apply Nat.testBit_eq_false_of_lt
        calc mask < 4294967296 := hmask
          _ = 2 ^ 32 := by norm_num
          _ ≤ 2 ^ i := Nat.pow_le_pow_right (by norm_num) h32le
      simp [hfalse]
  calc net &&& compl32 mask = (net &&& mask) &&& compl32 mask := by rw [hmasked]
    _ = net &&& (mask &&& compl32 mask) := Nat.land_assoc net mask (compl32 mask)
    _ = 0 := by rw [hmc]; simp

/-- C6 counterexample: with the unmasked network 192.168.173.1 the
comparator rejects 192.168.173.5 although that address satisfies the
claimed characterization (same masked bits, neither the network address
nor the directed broadcast address): NETWORK.__init__ stores the raw
network int, not its masked form. -/
theorem c6_counterexample :
    NETWORK_eq "192.168.173.1" "255.255.255.0" "192.168.173.5" = false ∧
    (atonN "192.168.173.5" &&& atonN "255.255.255.0"
        = network_address_of (atonN "192.168.173.1") (atonN "255.255.255.0") ∧
      atonN "192.168.173.5"
        ≠ network_address_of (atonN "192.168.173.1") (atonN "255.255.255.0") ∧
      atonN "192.168.173.5"
        ≠ broadcast_address_of (atonN "192.168.173.1") (atonN "255.255.255.0")) := by
  decide

/-- C6 amended: for a network value that is its own network address
(net &&& mask = net, as every well-formed configuration provides) and a
32-bit mask, the comparator accepts ip exactly when ip agrees with the
network on the masked bits and is neither the network address nor the
directed broadcast address. -/
theorem c6_amended (net mask ip : Nat) (hmasked : net &&& mask = net)
    (hmask : mask < 4294967296) :
    network_eq_num net mask ip = true ↔
      (ip &&& mask = network_address_of net mask ∧
        ip ≠ network_address_of net mask ∧
        ip ≠ broadcast_address_of net mask) := by
  have hdisj : net &&& compl32 mask = 0 := land_compl32_eq_zero net mask hmasked hmask
  have hsum : net + compl32 mask = net ||| compl32 mask :=
    add_eq_lor_of_land_eq_zero _ _ hdisj
  unfold network_address_of broadcast_address_of
  rw [hmasked, ← hsum]
  have hb : network_eq_num net mask ip = true ↔
      (ip &&& mask = net ∧ (ip : Int) - net ≠ 0 ∧ (ip : Int) - net ≠ compl32 mask) := by
    simp [network_eq_num]
  rw [hb]
  apply and_congr Iff.rfl
  apply and_congr
  · omega
  · omega

/-- C6 witness for the amended claim at 192.168.173.0/24 against
candidate 192.168.173.5. -/
theorem c6_amended_witness :
    network_eq_num 3232279808 4294967040 3232279813 = true ↔
      (3232279813 &&& 4294967040 = network_address_of 3232279808 4294967040 ∧
        3232279813 ≠ network_address_of 3232279808 4294967040 ∧
        3232279813 ≠ broadcast_address_of 3232279808 4294967040) :=
  c6_amended 3232279808 4294967040 3232279813 (by decide) (by decide)

/-! ### Support lemmas for the allocator claims -/

/-- The step-1 accumulator loop keeps the ip of the last record passing
the test, i.e. the last element of the filtered list. -/
theorem foldl_valid_ip (P : Host → Bool) :
    ∀ (l : List Host) (acc : Option String),
      l.foldl (fun a h => if P h then some h.ip else a) acc
        = match (l.filter P).getLast? with
          | some h => some h.ip
          | none => acc := by
  intro l
  induction l with
  | nil => intro acc; simp
  | cons x t ih =>
    intro acc
    by_cases hx : P x
    · rw [List.foldl_cons, List.filter_cons_of_pos hx, if_pos hx]
      rw [ih]
      cases hft : t.filter P with
      | nil => simp [hft]
      | cons b bt =>
        cases hgl : (b :: bt).getLast? with
        | none => simp at hgl
        | some h' => simp [hgl]
    · rw [List.foldl_cons, List.filter_cons_of_neg hx, if_neg hx]
      exact ih acc

/-- Specialization of the accumulator loop to the empty accumulator. -/
theorem foldl_valid_ip_none (P : Host → Bool) (l : List Host) :
    l.foldl (fun a h => if P h then some h.ip else a) none
      = ((l.filter P).getLast?).map Host.ip := by
  rw [foldl_valid_ip]
  cases (l.filter P).getLast? <;> simp

/-- The head of a stable insertion. -/
theorem head_insertByLastUsed (h : Host) (s : List Host) :
    (insertByLastUsed h s).head?
      = match s.head? with
        | none => some h
        | some x => if x.last_used < h.last_used then some x else some h := by
  cases s with
  | nil => rfl
  | cons x xs =>
    unfold insertByLastUsed
    by_cases hc : x.last_used < h.last_used
    · rw [if_pos hc]; simp [hc]
    · rw [if_neg hc]; simp [hc]

/-- Folding the first-minimum selector from a seeded accumulator. -/
theorem foldl_firstMin (t : List Host) : ∀ (m : Host),
    t.foldl
        (fun acc h =>
          match acc with
          | none => some h
          | some m' => if h.last_used < m'.last_used then some h else acc)
        (some m)
      = match firstMinByLastUsed t with
        | none => some m
        | some f => if f.last_used < m.last_used then some f else some m := by
  induction t with
  | nil => intro m; simp [firstMinByLastUsed]
  | cons x t ih =>
    intro m
    have hx : firstMinByLastUsed (x :: t)
        = t.foldl
            (fun acc h =>
              match acc with
              | none => some h
              | some m' => if h.last_used < m'.last_used then some h else acc)
            (some x) := rfl
    rw [hx, List.foldl_cons]
    show List.foldl _ (if x.last_used < m.last_used then some x else some m) t = _
    by_cases hxm : x.last_used < m.last_used
    · rw [if_pos hxm, ih x]
      cases hf : firstMinByLastUsed t with
      | none => simp [hxm]
      | some f =>
        by_cases hfx : f.last_used < x.last_used
        · simp [hfx, show f.last_used < m.last_used from by omega]
        · simp [hfx, hxm]
    · rw [if_neg hxm, ih m, ih x]
      cases hf : firstMinByLastUsed t with
      | none => simp [hxm]
      | some f =>
        by_cases hfx : f.last_used < x.last_used
        · simp [hfx]
        · simp [hfx, hxm, show ¬ (f.last_used < m.last_used) from by omega]

/-- The head of the stable last_used sort is the first record attaining
the minimal last_used. -/
theorem head_sortByLastUsed (l : List Host) :
    (sortByLastUsed l).head? = firstMinByLastUsed l := by
  induction l with
  | nil => rfl
  | cons h t ih =>
    have hs : sortByLastUsed (h :: t) = insertByLastUsed h (sortByLastUsed t) := rfl
    have hf : firstMinByLastUsed (h :: t)
        = t.foldl
            (fun acc h' =>
              match acc with
              | none => some h'
              | some m' => if h'.last_used < m'.last_used then some h' else acc)
            (some h) := rfl
    rw [hs, head_insertByLastUsed, ih, hf, foldl_firstMin]

/-- Every element produced by a successful Option-valued mapM comes from
some element of the input list. -/
theorem mapM_option_mem {α β : Type} (f : α → Option β) :
    ∀ (l : List α) (ys : List β), l.mapM f = some ys →
      ∀ y ∈ ys, ∃ x ∈ l, f x = some y := by
  intro l
  induction l with
  | nil =>
    intro ys h y hy
    rw [List.mapM_nil] at h
    have hys : ([] : List β) = ys := by simpa using h
    subst hys
    simp at hy
  | cons x t ih =>
    intro ys h y hy
    rw [List.mapM_cons] at h
    cases hfx : f x with
    | none => rw [hfx] at h; simp at h
    | some b =>
      rw [hfx] at h
      cases hmt : t.mapM f with
      | none => rw [hmt] at h; simp at h
      | some bs =>
        rw [hmt] at h
        simp at h
        rw [← h] at hy
        rcases List.mem_cons.mp hy with hyb | hybs
        · exact ⟨x, List.mem_cons_self x t, by rw [hfx, hyb]⟩
        · obtain ⟨x', hx', hfx'⟩ := ih bs hmt y hybs
          exact ⟨x', List.mem_cons_of_mem x hx', hfx'⟩

/-- Characters fold to themselves through toUpper then toLower exactly
as through toLower alone. -/
theorem toLower_toUpper (c : Char) : c.toUpper.toLower = c.toLower := by
  have hofNat : ∀ n : Nat, n < 55296 → (Char.ofNat n).toNat = n := by
    intro n hn
    have hv : n.isValidChar := Or.inl (by omega)
    rw [Char.ofNat, dif_pos hv]
    simp [Char.ofNatAux, Char.toNat, UInt32.toNat, BitVec.toNat_ofNatLt]
  unfold Char.toUpper Char.toLower
  by_cases h1 : c.toNat ≥ 97 ∧ c.toNat ≤ 122
  · rw [if_pos h1]
    have hval : (Char.ofNat (c.toNat - 32)).toNat = c.toNat - 32 :=
      hofNat _ (by omega)
    rw [hval]
    rw [if_pos (by omega), if_neg (by omega)]
    have : c.toNat - 32 + 32 = c.toNat := by omega
    rw [this, Char.ofNat_toNat]
  · rw [if_neg h1]

/-- Lower-casing is insensitive to a prior upper-casing. -/
theorem pyLower_pyUpper (s : String) : pyLower (pyUpper s) = pyLower s := by
  unfold pyLower pyUpper
  congr 1
  simp only [List.map_map]
  exact List.map_congr_left (fun c _ => toLower_toUpper c)

/-- A successful branch outcome pins the chosen ip to the returned
one. -/
theorem recordAllocation_eq (db : DB) (mac : String) (hn : Option String)
    (kh : List Host) (i : String) (now : Nat) (ip : String) (db' : DB)
    (h : some (recordAllocation db mac hn kh i now) = some (ip, db')) :
    recordAllocation db mac hn kh ip now = (ip, db') := by
  have h' := Option.some.inj h
  have hfst : (recordAllocation db mac hn kh i now).1 = i := by
    unfold recordAllocation
    split <;> rfl
  rw [h'] at hfst
  have hip : ip = i := hfst
  subst hip
  exact h'

/-- Structure of a successful get_ip_address run: the known-host lookup
parsed, and the returned pair is exactly the recordAllocation update for
the returned ip. -/
theorem get_ip_address_shape (c : DHCPServerConfiguration) (db : DB)
    (p : ReadPacket) (now : Nat) (ip : String) (db' : DB)
    (hrun : get_ip_address c db p now = some (ip, db')) :
    ∃ kh,
      HostDatabase.get (Host.get_pattern (.ci p.client_mac_address) .all .all .all) db
        = some kh ∧
      recordAllocation db p.client_mac_address p.host_name kh ip now = (ip, db') := by
  unfold get_ip_address at hrun
  split at hrun
  · simp at hrun
  next kh hkh =>
    refine ⟨kh, hkh, ?_⟩
    split at hrun
    next i h12 => exact recordAllocation_eq _ _ _ _ _ _ _ _ hrun
    next h12 =>
      split at hrun
      · simp at hrun
      next nh hnh =>
        split at hrun
        · simp at hrun
        next pool hpool =>
          split at hrun
          next i hfind => exact recordAllocation_eq _ _ _ _ _ _ _ _ hrun
          next hfind =>
            split at hrun
            · simp at hrun
            next h0 hhead =>
              split at hrun
              · exact recordAllocation_eq _ _ _ _ _ _ _ _ hrun
              · simp at hrun

/-- Unfolding of the pattern-equality test into its component
conditions. -/
theorem patMatches_iff (pattern : List Pat) (line : List String) :
    patMatches pattern line = true ↔
      (pattern.length = line.length ∧
        ∀ i ∈ List.range pattern.length,
          (pattern.getD i .all).eqTest (line.getD i "") = true) := by
  unfold patMatches
  exact decide_eq_true_iff

/-- A record that parses into a Host carries the host's ip in its second
field. -/
theorem from_tuple_ip (l : List String) (h : Host)
    (hft : Host.from_tuple l = some h) : h.ip = l.getD 1 "" := by
  unfold Host.from_tuple at hft
  split at hft
  next m i hn lu =>
    cases hn' : pyInt lu with
    | none => rw [hn'] at hft; simp at hft
    | some n =>
      rw [hn'] at hft
      simp at hft
      rw [← hft]
      rfl
  next => simp at hft

/-! ### Claim C5: the store update after allocation -/

/-- C5: when get_ip_address returns ip for the packet's MAC and no prior
record held both that MAC (case-insensitively) and that ip, the new
store is the old one with exactly one appended record
[MAC.upper(), ip, host_name or '', str(int(now))], so it holds exactly
one record with that (mac, ip) and every other record unchanged, in
place. -/
theorem c5_store (c : DHCPServerConfiguration) (db : DB) (p : ReadPacket)
    (now : Nat) (ip : String) (db' : DB)
    (hrun : get_ip_address c db p now = some (ip, db'))
    (hfresh : ∀ l ∈ db,
      ¬ (pyLower (l.getD 0 "") = pyLower p.client_mac_address ∧ l.getD 1 "" = ip)) :
    db' = db ++ [[pyUpper p.client_mac_address, ip, pyOrStr p.host_name "", natStr now]] ∧
    db'.countP
        (fun l => decide (l.getD 0 "" = pyUpper p.client_mac_address ∧ l.getD 1 "" = ip))
      = 1 := by
  obtain ⟨kh, hkh, hrec⟩ := get_ip_address_shape c db p now ip db' hrun
  have hany : kh.any (fun h => h.ip = ip) = false := by
    rw [Bool.eq_false_iff]
    intro hco
    rw [List.any_eq_true] at hco
    obtain ⟨h, hmem, hipb⟩ := hco
    have hip : h.ip = ip := of_decide_eq_true hipb
    obtain ⟨l, hlmem, hft⟩ := mapM_option_mem Host.from_tuple _ kh hkh h hmem
    have hldb : l ∈ db := List.mem_of_mem_filter hlmem
    have hmatch := (patMatches_iff _ _).mp (List.of_mem_filter hlmem)
    have h0 := hmatch.2 0 (by show 0 ∈ List.range 4; decide)
    have hl0 : pyLower p.client_mac_address = pyLower (l.getD 0 "") :=
      of_decide_eq_true h0
    apply hfresh l hldb
    refine ⟨hl0.symm, ?_⟩
    rw [← from_tuple_ip l h hft, hip]
  have hsnd := congrArg Prod.snd hrec
  unfold recordAllocation at hsnd
  rw [hany] at hsnd
  simp at hsnd
  have hnomatch : ∀ l ∈ db,
      patMatches
        (Host.to_pattern (Host.make p.client_mac_address ip (pyOrStr p.host_name "") now))
        l = false := by
    intro l hl
    rw [Bool.eq_false_iff]
    intro hm
    have hm' := (patMatches_iff _ _).mp hm
    have h0 := hm'.2 0 (by show 0 ∈ List.range 4; decide)
    have h1 := hm'.2 1 (by show 1 ∈ List.range 4; decide)
    have he0 : pyUpper p.client_mac_address = l.getD 0 "" := of_decide_eq_true h0
    have he1 : ip = l.getD 1 "" := of_decide_eq_true h1
    apply hfresh l hl
    exact ⟨by rw [← he0, pyLower_pyUpper], he1.symm⟩
  have hdel : HostDatabase.deleteHost
      (Host.make p.client_mac_address ip (pyOrStr p.host_name "") now) db = db := by
    unfold HostDatabase.deleteHost CSVDatabase.delete CSVDatabase.get
    have hnil : db.filter
        (patMatches
          (Host.to_pattern (Host.make p.client_mac_address ip (pyOrStr p.host_name "") now)))
        = [] := by
      rw [List.filter_eq_nil_iff]
      intro l hl
      simp [hnomatch l hl]
    rw [hnil]
    simp
  have hfinal : db'
      = db ++ [[pyUpper p.client_mac_address, ip, pyOrStr p.host_name "", natStr now]] := by
    rw [← hsnd]
    unfold HostDatabase.replace HostDatabase.add CSVDatabase.add
    rw [hdel]
    rfl
  refine ⟨hfinal, ?_⟩
  rw [hfinal, List.countP_append]
  have hzero : db.countP
      (fun l => decide (l.getD 0 "" = pyUpper p.client_mac_address ∧ l.getD 1 "" = ip))
      = 0 := by
    rw [List.countP_eq_zero]
    intro l hl hd
    have hd' := of_decide_eq_true hd
    apply hfresh l hl
    exact ⟨by rw [hd'.1, pyLower_pyUpper], hd'.2⟩
  rw [hzero]
  simp [List.countP_cons]

/-- C5 witness: an allocation of the requested 192.168.173.50 into the
empty store appends exactly the expected record. -/
theorem c5_store_witness :
    ([["AA:BB:CC:00:00:02", "192.168.173.50", "laptop", "1700000000"]] : DB)
        = [] ++ [[pyUpper pktReq.client_mac_address, "192.168.173.50",
            pyOrStr pktReq.host_name "", natStr 1700000000]] ∧
    ([["AA:BB:CC:00:00:02", "192.168.173.50", "laptop", "1700000000"]] : DB).countP
        (fun l => decide (l.getD 0 "" = pyUpper pktReq.client_mac_address ∧
          l.getD 1 "" = "192.168.173.50"))
      = 1 :=
  c5_store {} [] pktReq 1700000000 "192.168.173.50"
    [["AA:BB:CC:00:00:02", "192.168.173.50", "laptop", "1700000000"]]
    (by decide) (by simp)

/-! ### Claim C1: the four-step selection policy -/

/-- C1 counterexample: on the /29 network whose one-address pool is
occupied, the policy's step 4 prescribes reusing the LRU record's
10.0.0.6, but get_ip_address raises an AssertionError there (the /29
mask octet 248 makes is_valid_client_address demand literal octet
equality, which 10.0.0.6 fails), so the method does not return the
policy's choice. -/
theorem c1_counterexample :
    get_ip_address cfg248 db248 pkt248 17 = none ∧
    allocation_policy cfg248 db248 pkt248 = some "10.0.0.6" := by
  constructor
  · decide
  · decide

/-- C1 amended: whenever get_ip_address returns an address, that address
is the one the four-step policy prescribes: the last valid
case-insensitive MAC match, else a valid requested address, else the
first free pool address, else the LRU in-network record's address. -/
theorem c1_refines (c : DHCPServerConfiguration) (db : DB) (p : ReadPacket)
    (now : Nat) (ip : String) (db' : DB)
    (hrun : get_ip_address c db p now = some (ip, db')) :
    allocation_policy c db p = some ip := by
  unfold get_ip_address at hrun
  unfold allocation_policy
  split at hrun
  · simp at hrun
  next kh hkh =>
    split at hrun
    next i h12 =>
      have h' := Option.some.inj hrun
      have hfst : (recordAllocation db p.client_mac_address p.host_name kh i now).1 = i := by
        unfold recordAllocation
        split <;> rfl
      rw [h'] at hfst
      have hip : ip = i := hfst
      subst hip
      unfold knownOrRequested at h12
      split at h12
      next j hfold =>
        rw [foldl_valid_ip_none] at hfold
        rw [hfold]
        have hj : j = ip := Option.some.inj h12
        simp [hj]
      next hfold =>
        rw [foldl_valid_ip_none] at hfold
        rw [hfold]
        by_cases hv : is_valid_client_address c p.requested_ip_address = true
        · rw [if_pos hv] at h12
          simp only [hv]
          simp
          exact h12
        · rw [if_neg hv] at h12
          simp at h12
    next h12 =>
      unfold knownOrRequested at h12
      split at h12
      next j hfold => simp at h12
      next hfold =>
        rw [foldl_valid_ip_none] at hfold
        rw [hfold]
        have hv : is_valid_client_address c p.requested_ip_address = false := by
          by_cases hv' : is_valid_client_address c p.requested_ip_address = true
          · rw [if_pos hv'] at h12
            rw [h12] at hv'
            simp [is_valid_client_address] at hv'
          · simpa using hv'
        split at hrun
        · simp at hrun
        next nh hnh =>
          split at hrun
          · simp at hrun
          next pool hpool =>
            split at hrun
            next i hfind =>
              have h' := Option.some.inj hrun
              have hfst :
                  (recordAllocation db p.client_mac_address p.host_name kh i now).1 = i := by
                unfold recordAllocation
                split <;> rfl
              rw [h'] at hfst
              have hip : ip = i := hfst
              subst hip
              simp [hv, hnh, hpool, hfind]
            next hfind =>
              split at hrun
              · simp at hrun
              next h0 hhead =>
                split at hrun
                next hvalid =>
                  have h' := Option.some.inj hrun
                  have hfst :
                      (recordAllocation db p.client_mac_address p.host_name kh h0.ip now).1
                        = h0.ip := by
                    unfold recordAllocation
                    split <;> rfl
                  rw [h'] at hfst
                  have hip : ip = h0.ip := hfst
                  subst hip
                  have hmin : firstMinByLastUsed nh = some h0 := by
                    rw [← head_sortByLastUsed, hhead]
                  simp [hv, hnh, hpool, hfind, hmin]
                next => simp at hrun

/-- C1 witness for the amended claim: an allocation driven by a valid
requested address is reproduced by the policy. -/
theorem c1_refines_witness :
    allocation_policy {} [] pktReq = some "192.168.173.50" :=
  c1_refines {} [] pktReq 1700000000 "192.168.173.50"
    [["AA:BB:CC:00:00:02", "192.168.173.50", "laptop", "1700000000"]] (by decide)

/-! ### Claim C7: option emission order -/

/-- Unfolding equation of the skip-collector on a cons. -/
theorem dedupSkip_cons (seen : List Nat) (x : Nat) (xs : List Nat) :
    dedupSkip seen (x :: xs)
      = if seen.contains x then dedupSkip seen xs
        else x :: dedupSkip (seen ++ [x]) xs := rfl

/-- The collect-if-new fold appends exactly the first occurrences of the
qualifying codes not already collected. -/
theorem foldl_addNew (q : Nat → Bool) :
    ∀ (l : List Nat) (done : List Nat),
      l.foldl (fun d c => if q c && !d.contains c then d ++ [c] else d) done
        = done ++ dedupSkip done (l.filter q) := by
  intro l
  induction l with
  | nil => intro done; simp [dedupSkip]
  | cons c t ih =>
    intro done
    by_cases hq : q c = true
    · rw [List.foldl_cons, List.filter_cons_of_pos hq, dedupSkip_cons]
      by_cases hc : done.contains c = true
      · have hm : c ∈ done := List.mem_of_elem_eq_true hc
        have hcond : (q c && !done.contains c) = false := by simp [hq, hm]
        rw [hcond]
        simp only [Bool.false_eq_true, if_false]
        rw [if_pos hc]
        exact ih done
      · have hm : c ∉ done := fun hmem => hc (List.elem_eq_true_of_mem hmem)
        have hcond : (q c && !done.contains c) = true := by simp [hq, hm]
        rw [hcond]
        simp only [if_true]
        rw [if_neg hc, ih (done ++ [c])]
        simp
    · have hq' : q c = false := by simpa using hq
      rw [List.foldl_cons, List.filter_cons_of_neg (by simp [hq'])]
      have hcond : (q c && !done.contains c) = false := by simp [hq']
      rw [hcond]
      simp only [Bool.false_eq_true, if_false]
      exact ih done

/-- On a duplicate-free list the skip-collector is a plain filter. -/
theorem dedupSkip_of_nodup :
    ∀ (l : List Nat) (seen : List Nat), l.Nodup →
      dedupSkip seen l = l.filter (fun x => !seen.contains x) := by
  intro l
  induction l with
  | nil => intro seen _; simp [dedupSkip]
  | cons x t ih =>
    intro seen hnd
    have hx : x ∉ t := (List.nodup_cons.mp hnd).1
    have ht : t.Nodup := (List.nodup_cons.mp hnd).2
    rw [dedupSkip_cons]
    by_cases hc : seen.contains x = true
    · have hm : x ∈ seen := List.mem_of_elem_eq_true hc
      rw [if_pos hc, ih seen ht, List.filter_cons_of_neg (by simp [hm])]
    · have hm : x ∉ seen := fun hmem => hc (List.elem_eq_true_of_mem hmem)
      rw [if_neg hc, ih (seen ++ [x]) ht, List.filter_cons_of_pos (by simp [hm])]
      congr 1
      apply List.filter_congr
      intro y hy
      have hyx : y ≠ x := fun h => hx (h ▸ hy)
      simp [hyx]

/-- The skip-collector never repeats a code and never emits a code of
the skip list. -/
theorem dedupSkip_nodup :
    ∀ (l : List Nat) (seen : List Nat),
      (dedupSkip seen l).Nodup ∧ ∀ x ∈ dedupSkip seen l, x ∉ seen := by
  intro l
  induction l with
  | nil => intro seen; simp [dedupSkip]
  | cons x t ih =>
    intro seen
    rw [dedupSkip_cons]
    by_cases hc : seen.contains x = true
    · rw [if_pos hc]
      exact ih seen
    · rw [if_neg hc]
      obtain ⟨hnd, hnin⟩ := ih (seen ++ [x])
      refine ⟨List.nodup_cons.mpr ⟨fun hmem => ?_, hnd⟩, ?_⟩
      · exact hnin x hmem (by simp)
      · intro y hy
        rcases List.mem_cons.mp hy with rfl | hy'
        · exact fun hmem => hc (List.elem_eq_true_of_mem hmem)
        · intro hys
          exact hnin y hy' (by simp [hys])

/-- C7: the options property emits exactly the requested codes the
server has a value for, in the client's order without duplicates, then
the symbolically named options in ascending table order not already
emitted, then the numeric option_NN attributes in ascending order not
already emitted — and the emitted code list has no duplicates. -/
theorem c7_options_order (tbl : OptionTable) (p : WriteBootProtocolPacket) :
    WriteBootProtocolPacket.options tbl p = WriteBootProtocolPacket.optionsSpec tbl p ∧
    (WriteBootProtocolPacket.options tbl p).Nodup := by
  unfold WriteBootProtocolPacket.options WriteBootProtocolPacket.optionsSpec
  simp only [foldl_addNew, List.nil_append, dedupFirst]
  have hnd2 : ((List.range tbl.len).filter
      (fun c => (tbl.name c ≠ "" : Bool) && (p.attrs (tbl.name c)).isSome)).Nodup :=
    (List.nodup_range tbl.len).filter _
  have hnd3 : ((List.range 256).filter (fun c => (p.numOpt c).isSome)).Nodup :=
    (List.nodup_range 256).filter _
  rw [dedupSkip_of_nodup _ _ hnd2, dedupSkip_of_nodup _ _ hnd3]
  rw [List.filter_filter, List.filter_filter]
  refine ⟨rfl, ?_⟩
  have h1 := dedupSkip_nodup (p.parameter_order.filter
    (fun c => (decide (c < tbl.len) && (p.attrs (tbl.name c)).isSome)
      || (p.numOpt c).isSome)) ([] : List Nat)
  apply List.Nodup.append
  · apply List.Nodup.append h1.1
    · exact List.Nodup.filter _ (List.nodup_range tbl.len)
    · intro a ha hb
      have hb' := List.of_mem_filter hb
      rw [Bool.and_eq_true] at hb'
      have hnc := hb'.1
      rw [Bool.not_eq_true'] at hnc
      unfold List.contains at hnc
      rw [List.elem_eq_true_of_mem ha] at hnc
      cases hnc
  · exact List.Nodup.filter _ (List.nodup_range 256)
  · intro a ha hb
    have hb' := List.of_mem_filter hb
    rw [Bool.and_eq_true] at hb'
    have hnc := hb'.1
    rw [Bool.not_eq_true'] at hnc
    unfold List.contains at hnc
    rw [List.elem_eq_true_of_mem ha] at hnc
    cases hnc

/-! ### Claim C8: the serialized reply layout -/

/-- A list of length four is a literal four-element list. -/
theorem eq_four_of_length {α : Type} (l : List α) (h : l.length = 4) :
    ∃ a b c d, l = [a, b, c, d] := by
  match l, h with
  | [a, b, c, d], _ => exact ⟨a, b, c, d, rfl⟩

/-- A list of length six is a literal six-element list. -/
theorem eq_six_of_length {α : Type} (l : List α) (h : l.length = 6) :
    ∃ a b c d e f, l = [a, b, c, d, e, f] := by
  match l, h with
  | [a, b, c, d, e, f], _ => exact ⟨a, b, c, d, e, f, rfl⟩

/-- A well-formed quad's byte list has four bytes, each below 256. -/
theorem validQuad_aton4 (s : String) (h : validQuad s) :
    (aton4 s).length = 4 ∧ ∀ b ∈ aton4 s, b < 256 := by
  obtain ⟨hlen, hparts⟩ := h
  constructor
  · simp [aton4, hlen]
  · intro b hb
    simp only [aton4, List.mem_map] at hb
    obtain ⟨part, hpmem, hpb⟩ := hb
    obtain ⟨n, hn, hn256⟩ := hparts part hpmem
    rw [hn] at hpb
    simp at hpb
    rw [← hpb]
    exact hn256

/-- The option fold of to_bytes appends the concatenated TLV records of
the emitted options, provided no code raises in get_option. -/
theorem foldlM_tlv (tbl : OptionTable) (p : WriteBootProtocolPacket) :
    ∀ (l : List Nat), (∀ c ∈ l, WriteBootProtocolPacket.get_option tbl p c ≠ none) →
      ∀ (acc : List Nat),
      l.foldlM
          (fun acc c => do
            match ← WriteBootProtocolPacket.get_option tbl p c with
            | none => pure acc
            | some v => pure (acc ++ [c, v.length] ++ v))
          acc
        = some (acc ++
            ((l.filterMap (fun c =>
              match WriteBootProtocolPacket.get_option tbl p c with
              | some (some v) => some (c, v)
              | _ => none)).map (fun e => e.1 :: e.2.length :: e.2)).flatten) := by
  intro l
  induction l with
  | nil => intro _ acc; simp
  | cons c t ih =>
    intro h acc
    rw [List.foldlM_cons]
    cases hgo : WriteBootProtocolPacket.get_option tbl p c with
    | none => exact absurd hgo (h c (List.mem_cons_self c t))
    | some v =>
      have hrest : ∀ c' ∈ t, WriteBootProtocolPacket.get_option tbl p c' ≠ none :=
        fun c' hc' => h c' (List.mem_cons_of_mem c hc')
      cases v with
      | none =>
        simp only [List.filterMap_cons, hgo]
        show List.foldlM _ acc t = _
        exact ih hrest acc
      | some bytes =>
        simp only [List.filterMap_cons, hgo]
        show List.foldlM _ (acc ++ [c, bytes.length] ++ bytes) t = _
        rw [ih hrest]
        simp

set_option maxHeartbeats 2000000 in
set_option maxRecDepth 20000 in
/-- C8: to_bytes is the 236-byte fixed header laid out field by field
(big-endian numerics, four-byte ip fields, the hardware address padded
with zeros to the end of the header), then the magic cookie 99.130.83.99,
then one type-length-value record per emitted option, and the single
terminator 255 — and every element of the output is a byte. -/
theorem c8_to_bytes (tbl : OptionTable) (p : WriteBootProtocolPacket)
    (hq1 : validQuad p.client_ip_address) (hq2 : validQuad p.your_ip_address)
    (hq3 : validQuad p.next_server_ip_address) (hq4 : validQuad p.relay_agent_ip_address)
    (hck : p.magic_cookie = "99.130.83.99")
    (hmac : (macpack p.client_mac_address).length = 6)
    (hhl : p.hardware_address_length = 6)
    (hopt : ∀ c ∈ WriteBootProtocolPacket.options tbl p,
      WriteBootProtocolPacket.get_option tbl p c ≠ none)
    (hmt : p.message_type < 256) (hht : p.hardware_type < 256) (hhops : p.hops < 256)
    (hmacb : ∀ b ∈ macpack p.client_mac_address, b < 256)
    (hvals : ∀ e ∈ WriteBootProtocolPacket.emitted tbl p,
      e.1 < 256 ∧ e.2.length < 256 ∧ ∀ b ∈ e.2, b < 256) :
    WriteBootProtocolPacket.to_bytes tbl p
      = some (fixedHeaderSpec p ++ [99, 130, 83, 99] ++ tlvBytes tbl p ++ [255]) ∧
    (fixedHeaderSpec p).length = 236 ∧
    ∀ b ∈ fixedHeaderSpec p ++ [99, 130, 83, 99] ++ tlvBytes tbl p ++ [255], b < 256 := by
  obtain ⟨a1, a2, a3, a4, he1⟩ := eq_four_of_length _ (validQuad_aton4 _ hq1).1
  obtain ⟨b1, b2, b3, b4, he2⟩ := eq_four_of_length _ (validQuad_aton4 _ hq2).1
  obtain ⟨c1, c2, c3, c4, he3⟩ := eq_four_of_length _ (validQuad_aton4 _ hq3).1
  obtain ⟨d1, d2, d3, d4, he4⟩ := eq_four_of_length _ (validQuad_aton4 _ hq4).1
  obtain ⟨m1, m2, m3, m4, m5, m6, hem⟩ := eq_six_of_length _ hmac
  have hcookie : aton4 p.magic_cookie = [99, 130, 83, 99] := by
    rw [hck]
    decide
  refine ⟨?_, ?_, ?_⟩
  · simp only [WriteBootProtocolPacket.to_bytes]
    rw [foldlM_tlv tbl p (WriteBootProtocolPacket.options tbl p) hopt]
    unfold fixedHeaderSpec tlvBytes WriteBootProtocolPacket.emitted
    rw [he1, he2, he3, he4, hem, hcookie, hhl]
    rfl
  · unfold fixedHeaderSpec
    simp [pack32, shortpack, (validQuad_aton4 _ hq1).1, (validQuad_aton4 _ hq2).1,
      (validQuad_aton4 _ hq3).1, (validQuad_aton4 _ hq4).1, hmac]
  · intro b hb
    simp only [fixedHeaderSpec, tlvBytes, List.append_assoc, List.mem_append] at hb
    rcases hb with h | h | h | h | h | h | h | h | h | h | h | h | h
    · simp at h
      rcases h with rfl | rfl | rfl | rfl <;> omega
    · simp [pack32] at h
      rcases h with rfl | rfl | rfl | rfl <;> omega
    · simp [shortpack] at h
      rcases h with rfl | rfl <;> omega
    · simp [shortpack] at h
      rcases h with rfl | rfl <;> omega
    · exact (validQuad_aton4 _ hq1).2 b h
    · exact (validQuad_aton4 _ hq2).2 b h
    · exact (validQuad_aton4 _ hq3).2 b h
    · exact (validQuad_aton4 _ hq4).2 b h
    · exact hmacb b h
    · rw [List.eq_of_mem_replicate h]
      omega
    · simp at h
      rcases h with rfl | rfl | rfl | rfl <;> omega
    · rw [List.mem_flatten] at h
      obtain ⟨blk, hblk, hbin⟩ := h
      rw [List.mem_map] at hblk
      obtain ⟨e, he, rfl⟩ := hblk
      have hv := hvals e he
      rcases List.mem_cons.mp hbin with rfl | hbin'
      · exact hv.1
      · rcases List.mem_cons.mp hbin' with rfl | hbin''
        · exact hv.2.1
        · exact hv.2.2 b hbin''
    · simp at h
      omega

set_option maxHeartbeats 4000000 in
set_option maxRecDepth 40000 in
/-- C8 witness: the concrete reply pktW serializes to its header, the
cookie, the subnet-mask and message-type records, and the
terminator. -/
theorem c8_to_bytes_witness :
    WriteBootProtocolPacket.to_bytes tbl256 pktW
      = some (fixedHeaderSpec pktW ++ [99, 130, 83, 99] ++ tlvBytes tbl256 pktW ++ [255]) ∧
    (fixedHeaderSpec pktW).length = 236 ∧
    ∀ b ∈ fixedHeaderSpec pktW ++ [99, 130, 83, 99] ++ tlvBytes tbl256 pktW ++ [255],
      b < 256 :=
  c8_to_bytes tbl256 pktW (by decide) (by decide) (by decide) (by decide) (by decide)
    (by decide) (by decide) (by decide) (by decide) (by decide) (by decide)
    (by decide) (by decide)
